import Mathlib

/-!
Verification of the netstring codec (markdingo/netstring).

This file shallowly embeds the Go sources into Lean:

* `key.go`          — `Key`, `NoKey`, `Key.Assess`
* `decoder.go`      — the incremental decoder state machine (`parse`,
                      `Decode`, `DecodeKeyed`)
* `encoder.go`      — `EncodeBytes` and the typed convenience encoders
* the Marshal file  — `Marshal` over a reified record-field list
* `unmarshal.go`    — `Unmarshal` over a reified record-field list

Bytes are modelled as `Nat` (the Go sources only ever compare bytes with
ASCII constants and subtract `'0'` from digit bytes, so no modular
arithmetic arises: every value stays below 256 or below the netstring
length bound checked explicitly by the code).

The byte source handed to `NewDecoder` is modelled as the trace of its
successive `Read` results: a list of `(bytes, error)` pairs, one per
`Read` call, mirroring Go's `io.Reader` contract in which a single call
may return bytes together with an error.  An exhausted trace behaves as
a reader that keeps returning `(0 bytes, io.EOF)`.

The byte sink handed to `NewEncoder` is modelled by the outcomes of its
successive `Write` calls (`Writer.behavior`) together with the bytes it
has accepted so far.
-/

namespace Netstring

deriving instance DecidableEq for Except

/-- `MaximumLength` from the Go sources: the maximum length of a value in
a netstring (`const MaximumLength = 999999999`). -/
def MaximumLength : Nat := 999999999

/-- The phase tags the encoder wraps into a failed-write error
(`"Encoder write length failed"`, `"... leading delimiter ..."`,
`"... key ..."`, `"... value ..."`, `"... trailing delimiter ..."`). -/
inductive WPhase where
  | wLength
  | wLeading
  | wKey
  | wValue
  | wTrailing
  deriving DecidableEq

/-- The error values of the package.  Sentinel `errors.New` values are
plain constructors; errors built with `fmt.Errorf` carry the data that
is interpolated into their message. -/
inductive Err where
  | eof                                            -- io.EOF passed through from the reader
  | errLengthNotDigit                              -- ErrLengthNotDigit
  | errLeadingZero                                 -- ErrLeadingZero
  | errLengthToLong                                -- ErrLengthToLong
  | errValueToLong                                 -- ErrValueToLong
  | errColonExpected                               -- ErrColonExpected
  | errCommaExpected                               -- ErrCommaExpected
  | errNoKey                                       -- ErrNoKey
  | errUnsupportedType                             -- ErrUnsupportedType
  | errZeroKey                                     -- ErrZeroKey
  | errInvalidKey                                  -- ErrInvalidKey
  | errBadMarshalValue                             -- ErrBadMarshalValue
  | errBadUnmarshalMsg                             -- ErrBadUnmarshalMsg
  | errBadMarshalEOM                               -- ErrBadMarshalEOM
  | writeFailed (phase : WPhase)                   -- wrapped io.Writer error
  | errTagNotValid (name : String)                 -- "%s tag '%s' is not a valid netstring.Key"
  | errTagNotSingle (name : String)                -- "%s tag '%s' is not a single character"
  | errDuplicateTag (tag : List Nat) (name prev : String) -- "Duplicate tag '%s' for '%s' and '%s'"
  | errUnsupportedKind (name : String)             -- "%s type unsupported (%s)"
  | errDupStreamKey (k : Nat) (name : String)      -- "Duplicate key '%s' in decode stream for %s"
  | errConvert (v : List Nat) (name : String)      -- "Cannot convert '%s' to ... for %s"
  | readZeroNil                                    -- never produced: placeholder (unused)
  | errOutOfFuel                                   -- loop bound exceeded (unreachable, see uLoop)
  deriving DecidableEq

/-- `Key` from `key.go` is a byte value. -/
abbrev Key := Nat

/-- `NoKey` — the distinguished zero key denoting a standard netstring. -/
def NoKey : Key := 0

/-- `Key.Assess` from `key.go`: `NoKey` is valid but not keyed, an ASCII
letter (either case) is keyed, everything else returns
`ErrInvalidKey`. -/
def Key.Assess (k : Key) : Bool × Option Err :=
  if k = NoKey then (false, none)
  else if (97 ≤ k ∧ k ≤ 122) ∨ (65 ≤ k ∧ k ≤ 90) then (true, none)
  else (false, some .errInvalidKey)

/-! ## Decoder (decoder.go) -/

/-- `parseState` from `decoder.go`. -/
inductive ParseSt where
  | parseFirstByte
  | parseLength
  | parseColon
  | parseValue
  | parseComma
  deriving DecidableEq

/-- The parsing fields of `Decoder`: the cursor state, the computed
length, how many value bytes have been captured so far, and the
in-progress value.  (`inProgress` holds the bytes captured so far; Go
pre-allocates a buffer of size `length` at the colon and fills it, which
yields the same completed value.) -/
structure DecSt where
  state : ParseSt
  length : Nat
  lengthValueRead : Nat
  inProgress : List Nat
  deriving DecidableEq

/-- The state a fresh `Decoder` starts in, and that `parse` resets to
after yielding a completed netstring. -/
def initSt : DecSt := ⟨.parseFirstByte, 0, 0, []⟩

/-- Outcome of running the inner byte loop of `parse` on the staged
buffer: a latched error (with the unconsumed remainder and the mutated
state), a completed netstring (ditto), or an exhausted buffer. -/
inductive RunOut where
  | err (e : Err) (rest : List Nat) (st : DecSt)
  | done (v : List Nat) (rest : List Nat) (st : DecSt)
  | more (st : DecSt)
  deriving DecidableEq

/-- The `parseComma` case of the inner loop: expect `','` (44), then
yield the completed value and reset the cursor to `initSt`. -/
def commaStep (st : DecSt) (b : Nat) (rest : List Nat) : RunOut :=
  if b ≠ 44 then
    .err .errCommaExpected rest ⟨.parseComma, st.length, st.lengthValueRead, st.inProgress⟩
  else
    .done st.inProgress rest initSt

/-- The inner loop of `Decoder.parse` (`for dec.at < dec.end`): advance
the state machine over the staged bytes until an error, a completed
netstring, or the end of the staged bytes.

Faithful to `decoder.go`:
* `parseFirstByte`: a non-digit latches `ErrLengthNotDigit`; a digit
  starts the length.
* `parseLength`: a second digit with `length == 0` latches
  `ErrLeadingZero`; accumulation past `MaximumLength` latches
  `ErrLengthToLong`; a non-digit is re-examined as the colon
  (the Go `fallthrough` re-using the already-read byte).
* `parseColon`: kept for completeness; unreachable from `initSt`
  because the fallthrough always resolves the colon byte immediately.
* `parseValue`: Go block-copies `min(want, available)` bytes; here the
  same copy is performed byte-at-a-time, moving to `parseComma` once
  `length` bytes are captured.  A zero-byte value moves straight to the
  comma check on the current byte, exactly as Go's zero-length copy
  followed by the `parseComma` case in the same buffer pass.
* `parseComma`: a non-comma latches `ErrCommaExpected`; a comma yields
  the value and resets the cursor. -/
def runBuf (st : DecSt) : List Nat → RunOut
  | [] => .more st
  | b :: rest =>
    match st.state with
    | .parseFirstByte =>
      if b < 48 ∨ 57 < b then .err .errLengthNotDigit rest st
      else runBuf ⟨.parseLength, b - 48, st.lengthValueRead, st.inProgress⟩ rest
    | .parseLength =>
      if 48 ≤ b ∧ b ≤ 57 then
        if st.length = 0 then .err .errLeadingZero rest st
        else if MaximumLength < st.length * 10 + (b - 48) then
          .err .errLengthToLong rest
            ⟨.parseLength, st.length * 10 + (b - 48), st.lengthValueRead, st.inProgress⟩
        else
          runBuf ⟨.parseLength, st.length * 10 + (b - 48), st.lengthValueRead, st.inProgress⟩ rest
      else
        if b ≠ 58 then
          .err .errColonExpected rest ⟨.parseColon, st.length, st.lengthValueRead, st.inProgress⟩
        else
          runBuf ⟨.parseValue, st.length, st.lengthValueRead, []⟩ rest
    | .parseColon =>
      if b ≠ 58 then .err .errColonExpected rest st
      else runBuf ⟨.parseValue, st.length, st.lengthValueRead, []⟩ rest
    | .parseValue =>
      if st.length - st.lengthValueRead = 0 then
        commaStep st b rest
      else
        runBuf ⟨if st.lengthValueRead + 1 = st.length then .parseComma else .parseValue,
          st.length, st.lengthValueRead + 1, st.inProgress ++ [b]⟩ rest
    | .parseComma => commaStep st b rest

/-- One `Read` result of the modelled byte source: the returned bytes
together with the returned error, exactly as Go's
`n, err := rdr.Read(buf)` (which may return both). -/
abbrev Chunk := List Nat × Option Err

/-- The `Decoder` struct of `decoder.go`: the pending `Read` results of
its `io.Reader`, the staged still-unparsed bytes (`dec.buf[dec.at:dec.end]`),
the sticky `parseError`, and the parse-cursor fields. -/
structure Decoder where
  reads : List Chunk
  buf : List Nat
  parseError : Option Err
  pstate : DecSt
  deriving DecidableEq

/-- The outer `Read` loop of `parse`: when the staged buffer is empty,
perform the next `Read`; a read returning no bytes stores its error in
`parseError` and returns; otherwise its error is stored in `parseError`
and its bytes are run through the inner loop.  An exhausted trace
behaves as a reader that returns `(0, io.EOF)`. -/
def parseChunks : List Chunk → DecSt → Option (List Nat) × Decoder
  | [], st => (none, ⟨[], [], some .eof, st⟩)
  | (bytes, e) :: rest, st =>
    match bytes with
    | [] => (none, ⟨rest, [], e, st⟩)
    | _ :: _ =>
      match runBuf st bytes with
      | .err er remaining st' => (none, ⟨rest, remaining, some er, st'⟩)
      | .done v remaining st' => (some v, ⟨rest, remaining, e, st'⟩)
      | .more st' => parseChunks rest st'

/-- `Decoder.parse`: if an error is already latched, do nothing (the
sticky check `if dec.parseError != nil`); otherwise run the staged
buffer and then consume further reads until an error or a completed
netstring. -/
def parse (d : Decoder) : Option (List Nat) × Decoder :=
  if d.parseError.isSome then (none, d)
  else
    match d.buf with
    | [] => parseChunks d.reads d.pstate
    | _ :: _ =>
      match runBuf d.pstate d.buf with
      | .err er remaining st' => (none, ⟨d.reads, remaining, some er, st'⟩)
      | .done v remaining st' => (some v, ⟨d.reads, remaining, d.parseError, st'⟩)
      | .more st' => parseChunks d.reads st'

/-- `NewDecoder`. -/
def mkDecoder (reads : List Chunk) : Decoder := ⟨reads, [], none, initSt⟩

/-- `Decoder.Decode`: the next netstring, or the latched error.  The
error is only looked at when no netstring was produced — a completed
value is never bundled with an error. -/
def Decode (d : Decoder) : (Option (List Nat) × Option Err) × Decoder :=
  match parse d with
  | (some v, d') => ((some v, none), d')
  | (none, d') => ((none, d'.parseError), d')

/-- `Decoder.DecodeKeyed`: the next netstring split into its leading key
byte and remaining value.  A zero-length netstring yields `ErrZeroKey`;
a first byte that does not assess as keyed yields `ErrInvalidKey`; both
without touching the decoder's parse state (non-sticky). -/
def DecodeKeyed (d : Decoder) : (Key × Option (List Nat) × Option Err) × Decoder :=
  match parse d with
  | (none, d') => ((NoKey, none, d'.parseError), d')
  | (some [], d') => ((NoKey, none, some .errZeroKey), d')
  | (some (b :: rest), d') =>
    match Key.Assess b with
    | (_, some e) => ((NoKey, none, some e), d')
    | (keyed, none) =>
      if keyed then ((b, some rest, none), d')
      else ((NoKey, none, some .errInvalidKey), d')

example : Decode (mkDecoder [([51, 58, 97, 98, 99, 44], none)]) =
    ((some [97, 98, 99], none), ⟨[], [], none, initSt⟩) := by decide

example :
    (Decode (mkDecoder [([48, 51, 58, 97, 98, 99, 44], none)])).1 =
      (none, some .errLeadingZero) := by decide

/-! ## Encoder (encoder.go) -/

/-- The byte sink handed to `NewEncoder`, modelled by the outcome of
each successive `Write` call (`behavior i` is the success of the `i`-th
call) together with the bytes accepted so far.  A failing write accepts
nothing. -/
structure Writer where
  behavior : Nat → Bool
  calls : Nat
  written : List Nat

/-- One `Write` call on the sink. -/
def Writer.write (w : Writer) (bs : List Nat) : Bool × Writer :=
  if w.behavior w.calls then (true, ⟨w.behavior, w.calls + 1, w.written ++ bs⟩)
  else (false, ⟨w.behavior, w.calls + 1, w.written⟩)

/-- A sink whose writes all succeed (e.g. a `bytes.Buffer`). -/
def allOk : Writer := ⟨fun _ => true, 0, []⟩

/-- A sink whose writes all fail (e.g. a closed network socket). -/
def allFail : Writer := ⟨fun _ => false, 0, []⟩

/-- The big-endian decimal digits of `n` (`[]` for zero).  The first
argument is a structural-recursion bound; it is always called with
`fuel ≥ n`, which makes it exact (`natDigits_val`). -/
def natDigits : Nat → Nat → List Nat
  | _, 0 => []
  | 0, _ + 1 => []
  | fuel + 1, n + 1 => natDigits fuel ((n + 1) / 10) ++ [(n + 1) % 10]

/-- The decimal ASCII bytes `strconv.AppendUint(_, n, 10)` produces:
the big-endian digits of `n`, a single `'0'` for zero. -/
def formatNat (n : Nat) : List Nat :=
  if n = 0 then [48] else (natDigits n n).map (fun d => d + 48)

/-- The decimal ASCII bytes `strconv.FormatInt(v, 10)` produces. -/
def formatInt (v : Int) : List Nat :=
  if v < 0 then 45 :: formatNat v.natAbs else formatNat v.toNat

/-- The value-writing loop of `EncodeBytes`: write each variadic part in
call order, skipping zero-length parts, stopping at the first failed
write. -/
def writeVals (w : Writer) : List (List Nat) → Bool × Writer
  | [] => (true, w)
  | sv :: rest =>
    if sv.isEmpty then writeVals w rest
    else
      match w.write sv with
      | (true, w') => writeVals w' rest
      | (false, w') => (false, w')

/-- `Encoder.EncodeBytes` from `encoder.go`: assess the key, compute the
total length (1 for the key byte if keyed, plus all part lengths),
reject lengths above `MaximumLength`, then write the decimal length,
the colon, the key byte when keyed, the non-empty parts, and the
trailing comma, aborting with a phase-tagged error at the first failed
write. -/
def EncodeBytes (key : Key) (vals : List (List Nat)) (w : Writer) : Except Err Unit × Writer :=
  match Key.Assess key with
  | (_, some e) => (.error e, w)
  | (keyed, none) =>
    let l := (if keyed then 1 else 0) + (vals.map List.length).sum
    if MaximumLength < l then (.error .errValueToLong, w)
    else
      match w.write (formatNat l) with
      | (false, w) => (.error (.writeFailed .wLength), w)
      | (true, w) =>
        match w.write [58] with
        | (false, w) => (.error (.writeFailed .wLeading), w)
        | (true, w) =>
          match (if keyed then w.write [key] else (true, w)) with
          | (false, w) => (.error (.writeFailed .wKey), w)
          | (true, w) =>
            match writeVals w vals with
            | (false, w) => (.error (.writeFailed .wValue), w)
            | (true, w) =>
              match w.write [44] with
              | (false, w) => (.error (.writeFailed .wTrailing), w)
              | (true, w) => (.ok (), w)

/-- `Encoder.EncodeString`. -/
def EncodeString (key : Key) (s : List Nat) (w : Writer) : Except Err Unit × Writer :=
  EncodeBytes key [s] w

/-- `Encoder.EncodeInt64` (and, through `int64(val)`, `EncodeInt`,
`EncodeInt32`): the value formatted by `strconv.FormatInt`. -/
def EncodeInt64 (key : Key) (v : Int) (w : Writer) : Except Err Unit × Writer :=
  EncodeString key (formatInt v) w

/-- `Encoder.EncodeUint64` (and `EncodeUint`, `EncodeUint32`): the value
formatted by `strconv.FormatUint`. -/
def EncodeUint64 (key : Key) (v : Nat) (w : Writer) : Except Err Unit × Writer :=
  EncodeString key (formatNat v) w

/-- `Encoder.EncodeInt` delegates to `FormatInt(int64(val), 10)`. -/
def EncodeInt (key : Key) (v : Int) (w : Writer) : Except Err Unit × Writer :=
  EncodeInt64 key v w

/-! ## Marshal (the record-mapping encoder)

`Marshal` walks the record's fields with `reflect`.  The embedding
reifies what reflection observes about each field: its name, whether it
is exported, the bytes of its `netstring:"…"` tag (empty when absent),
and its kind together with its value.  Fields of floating-point kind
carry the byte payload that `strconv.FormatFloat(v, 'f', -1, 64)`
produces for them — the float-to-decimal conversion itself is binary
floating point and is not modelled, and no claim depends on it.  The
preceding `reflect.ValueOf` shape check (struct or pointer-to-struct) is
not modelled: the claims quantify over records, which are field lists
here. -/

/-- The kind+value of a record field as `Marshal` dispatches on it. -/
inductive MVal where
  | intv (v : Int)               -- reflect.Int* → EncodeInt64(key, vf.Int())
  | uintv (v : Nat)              -- reflect.Uint* → EncodeUint64(key, vf.Uint())
  | floatv (s : List Nat)        -- reflect.Float* → EncodeFloat64; s = FormatFloat bytes
  | strv (s : List Nat)          -- reflect.String → EncodeString
  | bytesv (b : List Nat)        -- []byte → EncodeBytes
  | sliceOther (elem : String)   -- a slice of non-byte element kind: unsupported
  | otherKind (kind : String)    -- map, array, struct, pointer, …: unsupported
  deriving DecidableEq

/-- One struct field as seen by `Marshal`'s reflection walk. -/
structure MField where
  name : String
  exported : Bool
  tag : List Nat
  val : MVal
  deriving DecidableEq

/-- Is the byte an ASCII letter (the keyed class of `Key.Assess`)? -/
def isLetterByte (b : Nat) : Bool :=
  decide ((97 ≤ b ∧ b ≤ 122) ∨ (65 ≤ b ∧ b ≤ 90))

/-- Name lookup in `Marshal`'s `dupes` map. -/
def lookupDupe (k : Key) : List (Key × String) → Option String
  | [] => none
  | (k', n) :: rest => if k = k' then some n else lookupDupe k rest

/-- The field loop of `Marshal`: skip unexported and untagged fields,
reject tags that are not a single keyed byte, reject duplicate tags,
then encode the field by kind — discarding the encoder's error result,
exactly as the Go statements `enc.EncodeInt64(key, vf.Int())` etc. do —
and finally emit the end-of-message sentinel `EncodeBytes(eom)`, whose
error result is also discarded. -/
def marshalFields (eom : Key) (w : Writer) (dupes : List (Key × String)) :
    List MField → Except Err Unit × Writer
  | [] => (.ok (), (EncodeBytes eom [] w).2)
  | f :: rest =>
    if !f.exported then marshalFields eom w dupes rest
    else
      match f.tag with
      | [] => marshalFields eom w dupes rest
      | [t] =>
        match Key.Assess t with
        | (_, some e) => (.error e, w)
        | (keyed, none) =>
          if !keyed then (.error (.errTagNotValid f.name), w)
          else
            match lookupDupe t dupes with
            | some prev => (.error (.errDuplicateTag f.tag f.name prev), w)
            | none =>
              let dupes' := (t, f.name) :: dupes
              match f.val with
              | .intv v => marshalFields eom (EncodeInt64 t v w).2 dupes' rest
              | .uintv v => marshalFields eom (EncodeUint64 t v w).2 dupes' rest
              | .floatv s => marshalFields eom (EncodeString t s w).2 dupes' rest
              | .strv s => marshalFields eom (EncodeString t s w).2 dupes' rest
              | .bytesv b => marshalFields eom (EncodeBytes t [b] w).2 dupes' rest
              | .sliceOther _ => (.error (.errUnsupportedKind f.name), w)
              | .otherKind _ => (.error (.errUnsupportedKind f.name), w)
      | _ :: _ :: _ => (.error (.errTagNotValid f.name), w)

/-- `Encoder.Marshal(eom, message)`: the end-of-message key must assess
as keyed, then the fields are walked as above. -/
def Marshal (eom : Key) (fields : List MField) (w : Writer) : Except Err Unit × Writer :=
  match Key.Assess eom with
  | (_, some e) => (.error e, w)
  | (keyed, none) =>
    if !keyed then (.error .errBadMarshalEOM, w)
    else marshalFields eom w [] fields

example :
    (Marshal 90 [⟨"Age", true, [97], .intv 21⟩] allOk).2.written =
      [51, 58, 97, 50, 49, 44, 49, 58, 90, 44] := by decide

/-! ## Unmarshal (unmarshal.go)

`Unmarshal` first walks the destination record's fields building a
`Key → field` map, then consumes keyed netstrings until the
end-of-message key.  As for `Marshal`, the fields are reified as what
reflection observes: name, exportedness, tag bytes, and kind.  The
floating-point kinds are not modelled (`strconv.ParseFloat` is binary
floating point and no claim depends on it); the supported kinds here
are the signed and unsigned integers of declared bit width, strings,
and byte slices.  The pointer-to-struct shape check is not modelled for
the same reason as `Marshal`'s. -/

/-- The kind of a destination record field, as checked by the
field-scanning loop of `Unmarshal`. -/
inductive UKind where
  | kInt (bits : Nat)            -- reflect.Int*: bits is the declared width
  | kUint (bits : Nat)           -- reflect.Uint*
  | kString                      -- reflect.String
  | kBytes                       -- []byte
  | kSliceOther (elem : String)  -- a slice of non-byte element kind: unsupported
  | kOther (kind : String)       -- any other kind: unsupported
  deriving DecidableEq

/-- One destination field as seen by `Unmarshal`'s reflection walk. -/
structure USpec where
  name : String
  exported : Bool
  tag : List Nat
  kind : UKind
  deriving DecidableEq

/-- A parsed value stored into a destination field. -/
inductive UVal where
  | ivl (v : Int)
  | uvl (v : Nat)
  | svl (s : List Nat)
  | bvl (b : List Nat)
  deriving DecidableEq

/-- The per-key entry of `Unmarshal`'s `keyToField` map: the `seen`
flag, the field's name and kind, and the value stored so far (`none`
models the untouched destination field). -/
structure UField where
  seen : Bool
  name : String
  kind : UKind
  val : Option UVal
  deriving DecidableEq

/-- Association-list lookup in the `keyToField` map. -/
def lookupField (k : Key) : List (Key × UField) → Option UField
  | [] => none
  | (k', f) :: rest => if k = k' then some f else lookupField k rest

/-- Replace the entry of key `k` in the `keyToField` map. -/
def updateField (k : Key) (f : UField) : List (Key × UField) → List (Key × UField)
  | [] => []
  | (k', f') :: rest =>
    if k = k' then (k', f) :: rest else (k', f') :: updateField k f rest

/-- The digit-string value of `s`, or `none` unless `s` is one or more
ASCII digits (the base-10, no-sign core of `strconv.ParseInt`). -/
def digitsVal (s : List Nat) : Option Nat :=
  if s.isEmpty then none
  else if s.all (fun b => 48 ≤ b && b ≤ 57) then
    some (s.foldl (fun a b => a * 10 + (b - 48)) 0)
  else none

/-- `strconv.ParseInt(string(v), 10, 64)`: an optional single sign
followed by digits, rejected when outside the signed 64-bit range. -/
def parseInt64 (s : List Nat) : Option Int :=
  match s with
  | 45 :: rest =>
    (digitsVal rest).bind fun n => if (n : Int) ≤ 2 ^ 63 then some (-(n : Int)) else none
  | 43 :: rest =>
    (digitsVal rest).bind fun n => if (n : Int) ≤ 2 ^ 63 - 1 then some (n : Int) else none
  | _ =>
    (digitsVal s).bind fun n => if (n : Int) ≤ 2 ^ 63 - 1 then some (n : Int) else none

/-- `strconv.ParseUint(string(v), 10, 64)`: digits only (no sign),
rejected at or above `2^64`. -/
def parseUint64 (s : List Nat) : Option Nat :=
  (digitsVal s).bind fun n => if n < 2 ^ 64 then some n else none

/-- `reflect.Value.OverflowInt` for a field of `bits` width. -/
def overflowInt (bits : Nat) (v : Int) : Bool :=
  decide (v < -(2 ^ (bits - 1) : Int) ∨ (2 ^ (bits - 1) : Int) - 1 < v)

/-- `reflect.Value.OverflowUint` for a field of `bits` width. -/
def overflowUint (bits : Nat) (v : Nat) : Bool :=
  decide (2 ^ bits ≤ v)

/-- The conversion-and-store switch of `Unmarshal`'s decode loop:
parse the raw value into the field's kind, `none` on a parse or
overflow failure.  The unsupported kinds are unreachable here because
`buildFieldMap` rejects them up front (the Go `default` case is an
internal-error return). -/
def storeVal (kind : UKind) (v : List Nat) : Option UVal :=
  match kind with
  | .kInt bits =>
    (parseInt64 v).bind fun i => if overflowInt bits i then none else some (.ivl i)
  | .kUint bits =>
    (parseUint64 v).bind fun u => if overflowUint bits u then none else some (.uvl u)
  | .kString => some (.svl v)
  | .kBytes => some (.bvl v)
  | .kSliceOther _ => none
  | .kOther _ => none

/-- The field-scanning loop of `Unmarshal` (before any stream
consumption): skip unexported and untagged fields, reject tags that are
not a single keyed byte, reject duplicate tags, reject unsupported
kinds, and build the `keyToField` map in field order. -/
def buildFieldMap (acc : List (Key × UField)) :
    List USpec → Except Err (List (Key × UField))
  | [] => .ok acc
  | f :: rest =>
    if !f.exported then buildFieldMap acc rest
    else
      match f.tag with
      | [] => buildFieldMap acc rest
      | [t] =>
        match Key.Assess t with
        | (_, some e) => .error e
        | (keyed, none) =>
          if !keyed then .error (.errTagNotValid f.name)
          else
            match lookupField t acc with
            | some f' => .error (.errDuplicateTag f.tag f.name f'.name)
            | none =>
              match f.kind with
              | .kSliceOther _ => .error (.errUnsupportedKind f.name)
              | .kOther _ => .error (.errUnsupportedKind f.name)
              | k => buildFieldMap (acc ++ [(t, ⟨false, f.name, k, none⟩)]) rest
      | _ :: _ :: _ => .error (.errTagNotSingle f.name)

/-- An upper bound on the number of `DecodeKeyed` calls `Unmarshal`'s
loop can make on `d` before returning: every call that lets the loop
continue either consumes at least one byte of the source or consumes
one pending read that carried no bytes. -/
def decoderFuel (d : Decoder) : Nat :=
  d.buf.length + (d.reads.map (fun c => c.1.length + 1)).sum + 1

/-- The decode loop of `Unmarshal` (lines 154–216 of `unmarshal.go`):
read keyed netstrings until `eom`; an unmatched key is recorded as the
single most-recently-seen unknown key and the loop continues; a key
whose field was already populated is a hard error; otherwise the value
is parsed into the field's kind and stored.  The structural fuel makes
the recursion obviously terminating; `Unmarshal` supplies
`decoderFuel`, which over-approximates the possible number of
iterations, so `errOutOfFuel` is unreachable. -/
def uLoop (eom : Key) :
    Nat → List (Key × UField) → Key → Decoder →
      Key × Option Err × List (Key × UField) × Decoder
  | 0, table, unknown, d => (unknown, some .errOutOfFuel, table, d)
  | fuel + 1, table, unknown, d =>
    match DecodeKeyed d with
    | ((_, _, some e), d') => (unknown, some e, table, d')
    | ((k, v, none), d') =>
      if k = eom then (unknown, none, table, d')
      else
        match lookupField k table with
        | none => uLoop eom fuel table k d'
        | some f =>
          if f.seen then (unknown, some (.errDupStreamKey k f.name), table, d')
          else
            match storeVal f.kind (v.getD []) with
            | none => (unknown, some (.errConvert (v.getD []) f.name), table, d')
            | some uv =>
              uLoop eom fuel (updateField k ⟨true, f.name, f.kind, some uv⟩ table) unknown d'

/-- `Decoder.Unmarshal(eom, message)`: the end-of-message key must
assess as keyed, the destination fields are scanned into the
`keyToField` map, then the decode loop runs.  The result is the
`unknown` key, the error, the final field map (the populated record),
and the final decoder. -/
def Unmarshal (eom : Key) (specs : List USpec) (d : Decoder) :
    Key × Option Err × List (Key × UField) × Decoder :=
  match Key.Assess eom with
  | (_, some e) => (NoKey, some e, [], d)
  | (keyed, none) =>
    if !keyed then (NoKey, some .errBadMarshalEOM, [], d)
    else
      match buildFieldMap [] specs with
      | .error e => (NoKey, some e, [], d)
      | .ok table => uLoop eom (decoderFuel d) table NoKey d

example :
    (Unmarshal 65 [⟨"M1", true, [97], .kInt 64⟩]
        (mkDecoder [([52, 58, 98, 49, 50, 51, 44, 49, 58, 65, 44], none)])).1 = 98 := by
  decide

/-! ## Helper lemmas about the decoder -/

/-- `parse` on a fresh decoder goes straight to the read loop. -/
theorem parse_mk (reads : List Chunk) : parse (mkDecoder reads) = parseChunks reads initSt := rfl

/-- A poisoned decoder's `parse` is a no-op. -/
theorem parse_poisoned (d : Decoder) (e : Err) (h : d.parseError = some e) :
    parse d = (none, d) := by
  simp [parse, h]

/-! ## Claim theorems -/

/-- C4: the decoder's error state is sticky: once `parseError` is
latched, every `Decode` (and `DecodeKeyed`) call returns exactly that
error and leaves the decoder unchanged — so all subsequent calls return
the identical error and never a value.  The third conjunct shows the
spec's concrete scenario: after the grammar error latched by
`"3*abc,"`, two consecutive `Decode` calls return the identical
`ErrColonExpected` and the decoder is a fixed point. -/
theorem c4_sticky_error :
    (∀ (d : Decoder) (e : Err), d.parseError = some e → Decode d = ((none, some e), d)) ∧
    (∀ (d : Decoder) (e : Err), d.parseError = some e →
      DecodeKeyed d = ((NoKey, none, some e), d)) ∧
    ((Decode (mkDecoder [([51, 42, 97, 98, 99, 44], none)])).1 =
        (none, some .errColonExpected) ∧
      Decode (Decode (mkDecoder [([51, 42, 97, 98, 99, 44], none)])).2 =
        ((none, some .errColonExpected),
          (Decode (mkDecoder [([51, 42, 97, 98, 99, 44], none)])).2)) := by
  refine ⟨?_, ?_, by decide⟩
  · intro d e h
    simp [Decode, parse, h]
  · intro d e h
    simp [DecodeKeyed, parse, h]

/-- C4 witness: the sticky-error theorem applied to a concrete poisoned
decoder. -/
theorem c4_sticky_error_witness :
    Decode (⟨[], [], some .eof, initSt⟩ : Decoder) =
      ((none, some .eof), (⟨[], [], some .eof, initSt⟩ : Decoder)) :=
  c4_sticky_error.1 _ .eof rfl

/-- C6: the leading-zero rule.  First conjunct: a length field that is
the single digit `0` followed by `':'` and `','` decodes to the empty
value with no error, for any following bytes and reads, leaving a
healthy decoder positioned after the frame.  Second conjunct: any
length field whose first digit is `0` and which has a second digit
latches `ErrLeadingZero`.  Third conjunct: the spec's concrete stream
`"03:abc,"` fails with the leading-zero error. -/
theorem c6_leading_zero :
    (∀ (rest : List Nat) (reads : List Chunk),
      Decode (mkDecoder ((48 :: 58 :: 44 :: rest, none) :: reads)) =
        ((some [], none), ⟨reads, rest, none, initSt⟩)) ∧
    (∀ (b : Nat) (rest : List Nat) (reads : List Chunk), 48 ≤ b → b ≤ 57 →
      (Decode (mkDecoder ((48 :: b :: rest, none) :: reads))).1 =
        (none, some .errLeadingZero)) ∧
    (Decode (mkDecoder [([48, 51, 58, 97, 98, 99, 44], none)])).1 =
      (none, some .errLeadingZero) := by
  refine ⟨?_, ?_, by decide⟩
  · intro rest reads
    simp [Decode, parse, mkDecoder, parseChunks, runBuf, commaStep, initSt]
  · intro b rest reads hb1 hb2
    simp [Decode, parse_mk, parseChunks, runBuf, initSt, hb1, hb2]

/-- C6 witness: both general conjuncts instantiated, with the digit
hypotheses discharged at `b = 51` (`'3'`). -/
theorem c6_leading_zero_witness :
    Decode (mkDecoder [([48, 58, 44], none)]) = ((some [], none), ⟨[], [], none, initSt⟩) ∧
    (Decode (mkDecoder [([48, 51, 58], none)])).1 = (none, some .errLeadingZero) :=
  ⟨c6_leading_zero.1 [] [], c6_leading_zero.2.1 51 [58] [] (by decide) (by decide)⟩


/-! ## Decimal-digit lemmas -/

/-- `natDigits` is exact when given enough fuel: folding its digits as a
base-10 numeral recovers the number. -/
theorem natDigits_val (fuel : Nat) :
    ∀ n, n ≤ fuel → (natDigits fuel n).foldl (fun a d => a * 10 + d) 0 = n := by
  induction fuel with
  | zero =>
    intro n hn
    have : n = 0 := by omega
    subst this
    rfl
  | succ f IH =>
    intro n hn
    match n with
    | 0 => rfl
    | m + 1 =>
      have hdiv : (m + 1) / 10 ≤ f := by
        have := Nat.div_lt_self (Nat.succ_pos m) (by omega : 1 < 10)
        omega
      show ((natDigits f ((m + 1) / 10) ++ [(m + 1) % 10]).foldl (fun a d => a * 10 + d) 0) = m + 1
      rw [List.foldl_append, IH _ hdiv]
      show (m + 1) / 10 * 10 + (m + 1) % 10 = m + 1
      omega

/-- Every `natDigits` digit is below 10. -/
theorem natDigits_lt_ten (fuel : Nat) : ∀ n d, d ∈ natDigits fuel n → d < 10 := by
  induction fuel with
  | zero =>
    intro n d hd
    match n with
    | 0 => simp [natDigits] at hd
    | m + 1 => simp [natDigits] at hd
  | succ f IH =>
    intro n d hd
    match n with
    | 0 => simp [natDigits] at hd
    | m + 1 =>
      have : d ∈ natDigits f ((m + 1) / 10) ++ [(m + 1) % 10] := hd
      rcases List.mem_append.mp this with h | h
      · exact IH _ d h
      · simp at h
        omega

/-- For a positive number, `natDigits` is non-empty and its leading
digit is non-zero (no redundant leading zero). -/
theorem natDigits_head (fuel : Nat) :
    ∀ n, 1 ≤ n → n ≤ fuel → ∃ h t, natDigits fuel n = h :: t ∧ 1 ≤ h := by
  induction fuel with
  | zero => intro n h1 h2; omega
  | succ f IH =>
    intro n h1 _
    match n, h1 with
    | m + 1, _ =>
      by_cases h10 : (m + 1) / 10 = 0
      · refine ⟨(m + 1) % 10, [], ?_, by omega⟩
        show natDigits f ((m + 1) / 10) ++ [(m + 1) % 10] = _
        rw [h10]
        simp [natDigits]
      · have hdiv : (m + 1) / 10 ≤ f := by
          have := Nat.div_lt_self (Nat.succ_pos m) (by omega : 1 < 10)
          omega
        obtain ⟨h, t, heq, hh⟩ := IH ((m + 1) / 10) (by omega) hdiv
        refine ⟨h, t ++ [(m + 1) % 10], ?_, hh⟩
        show natDigits f ((m + 1) / 10) ++ [(m + 1) % 10] = _
        rw [heq]
        rfl

/-- Folding digit bytes (`d + '0'`) is folding the digits. -/
theorem foldl_map_digit_bytes (ds : List Nat) :
    ∀ n, (ds.map (fun d => d + 48)).foldl (fun a b => a * 10 + (b - 48)) n =
      ds.foldl (fun a d => a * 10 + d) n := by
  induction ds with
  | nil => intro n; rfl
  | cons d ds IH =>
    intro n
    show (ds.map (fun d => d + 48)).foldl (fun a b => a * 10 + (b - 48)) (n * 10 + (d + 48 - 48)) =
      ds.foldl (fun a d => a * 10 + d) (n * 10 + d)
    rw [Nat.add_sub_cancel, IH]

/-- Accumulating further digit bytes never decreases the value. -/
theorem foldl_digit_ge (bs : List Nat) :
    ∀ n, n ≤ bs.foldl (fun a b => a * 10 + (b - 48)) n := by
  induction bs with
  | nil => intro n; exact le_rfl
  | cons b bs IH =>
    intro n
    exact le_trans (by omega : n ≤ n * 10 + (b - 48)) (IH (n * 10 + (b - 48)))

/-! ## Length-field runs of the decoder state machine -/

/-- Consuming the first digit byte of a length field. -/
theorem runBuf_first_digit (b : Nat) (rest : List Nat) (hb1 : 48 ≤ b) (hb2 : b ≤ 57) :
    runBuf initSt (b :: rest) = runBuf ⟨.parseLength, b - 48, 0, []⟩ rest := by
  simp only [runBuf, initSt]
  rw [if_neg (by omega)]

/-- In `parseLength`, a run of digit bytes accumulates the decimal
value, as long as it stays within `MaximumLength`. -/
theorem runBuf_digits (bs : List Nat) :
    ∀ (n : Nat) (tail : List Nat), (∀ b ∈ bs, 48 ≤ b ∧ b ≤ 57) → 1 ≤ n →
    bs.foldl (fun a b => a * 10 + (b - 48)) n ≤ MaximumLength →
    runBuf ⟨.parseLength, n, 0, []⟩ (bs ++ tail) =
      runBuf ⟨.parseLength, bs.foldl (fun a b => a * 10 + (b - 48)) n, 0, []⟩ tail := by
  induction bs with
  | nil => intro n tail _ _ _; rfl
  | cons b bs IH =>
    intro n tail hb hn hle
    have hbb := hb b (by simp)
    have hfold : (b :: bs).foldl (fun a b => a * 10 + (b - 48)) n =
        bs.foldl (fun a b => a * 10 + (b - 48)) (n * 10 + (b - 48)) := rfl
    rw [hfold] at hle ⊢
    have hmono := foldl_digit_ge bs (n * 10 + (b - 48))
    show runBuf ⟨.parseLength, n, 0, []⟩ (b :: (bs ++ tail)) = _
    simp only [runBuf]
    rw [if_pos (by omega : 48 ≤ b ∧ b ≤ 57), if_neg (by omega : ¬n = 0),
      if_neg (by omega : ¬MaximumLength < n * 10 + (b - 48))]
    exact IH _ tail (fun x hx => hb x (by simp [hx])) (by omega) hle

/-- In `parseLength`, a run of digit bytes whose value passes
`MaximumLength` latches `ErrLengthToLong` — whatever bytes follow,
before any colon or value byte is examined. -/
theorem runBuf_overflow (bs : List Nat) :
    ∀ (n : Nat) (tail : List Nat), (∀ b ∈ bs, 48 ≤ b ∧ b ≤ 57) → 1 ≤ n →
    n ≤ MaximumLength →
    MaximumLength < bs.foldl (fun a b => a * 10 + (b - 48)) n →
    ∃ rest st, runBuf ⟨.parseLength, n, 0, []⟩ (bs ++ tail) =
      .err .errLengthToLong rest st := by
  induction bs with
  | nil =>
    intro n tail _ _ hle hgt
    simp only [List.foldl_nil] at hgt
    omega
  | cons b bs IH =>
    intro n tail hb hn hle hgt
    have hbb := hb b (by simp)
    have hfold : (b :: bs).foldl (fun a b => a * 10 + (b - 48)) n =
        bs.foldl (fun a b => a * 10 + (b - 48)) (n * 10 + (b - 48)) := rfl
    rw [hfold] at hgt
    by_cases hov : MaximumLength < n * 10 + (b - 48)
    · refine ⟨bs ++ tail, ⟨.parseLength, n * 10 + (b - 48), 0, []⟩, ?_⟩
      show runBuf ⟨.parseLength, n, 0, []⟩ (b :: (bs ++ tail)) = _
      simp only [runBuf]
      rw [if_pos (by omega : 48 ≤ b ∧ b ≤ 57), if_neg (by omega : ¬n = 0), if_pos hov]
    · obtain ⟨r, s, hr⟩ := IH (n * 10 + (b - 48)) tail (fun x hx => hb x (by simp [hx]))
        (by omega) (by omega) hgt
      refine ⟨r, s, ?_⟩
      show runBuf ⟨.parseLength, n, 0, []⟩ (b :: (bs ++ tail)) = _
      simp only [runBuf]
      rw [if_pos (by omega : 48 ≤ b ∧ b ≤ 57), if_neg (by omega : ¬n = 0), if_neg hov]
      exact hr

/-- The colon transition after the length digits. -/
theorem runBuf_colon_step (L vr : Nat) (acc rest : List Nat) :
    runBuf ⟨.parseLength, L, vr, acc⟩ (58 :: rest) = runBuf ⟨.parseValue, L, vr, []⟩ rest := by
  simp [runBuf]

/-- Capturing exactly the remaining value bytes and the trailing comma
completes the netstring with the captured bytes and a reset cursor. -/
theorem runBuf_value (v : List Nat) :
    ∀ (L vr : Nat) (acc tail : List Nat), vr + v.length = L →
    runBuf ⟨.parseValue, L, vr, acc⟩ (v ++ 44 :: tail) = .done (acc ++ v) tail initSt := by
  induction v with
  | nil =>
    intro L vr acc tail h
    have hL : L = vr := by simpa using h.symm
    subst hL
    show runBuf ⟨.parseValue, L, L, acc⟩ (44 :: tail) = _
    simp [runBuf, commaStep]
  | cons b v IH =>
    intro L vr acc tail h
    simp only [List.length_cons] at h
    show runBuf ⟨.parseValue, L, vr, acc⟩ (b :: (v ++ 44 :: tail)) = _
    simp only [runBuf]
    rw [if_neg (by omega : ¬L - vr = 0)]
    by_cases hl : vr + 1 = L
    · have hv : v = [] := by
        cases v with
        | nil => rfl
        | cons x xs => exfalso; simp at h; omega
      subst hv
      rw [if_pos hl]
      show runBuf ⟨.parseComma, L, vr + 1, acc ++ [b]⟩ (44 :: tail) = _
      simp [runBuf, commaStep]
    · rw [if_neg hl]
      have := IH L (vr + 1) (acc ++ [b]) tail (by omega)
      simpa using this

/-- A complete frame `"<L>:<v>,"` run from the initial cursor yields
exactly `v` and resets the cursor, leaving the following bytes
unconsumed. -/
theorem runBuf_frame (v : List Nat) (hlen : v.length ≤ MaximumLength) (tail : List Nat) :
    runBuf initSt (formatNat v.length ++ 58 :: (v ++ 44 :: tail)) = .done v tail initSt := by
  by_cases h0 : v.length = 0
  · have hv : v = [] := List.length_eq_zero.mp h0
    subst hv
    simp [formatNat, runBuf, commaStep, initSt]
  · obtain ⟨h, t, hdig, hh⟩ := natDigits_head v.length v.length (by omega) le_rfl
    have hlt : ∀ d ∈ h :: t, d < 10 := by
      intro d hd
      exact natDigits_lt_ten v.length v.length d (hdig ▸ hd)
    have hh10 : h < 10 := hlt h (by simp)
    have hval : (h :: t).foldl (fun a d => a * 10 + d) 0 = v.length := by
      rw [← hdig]
      exact natDigits_val v.length v.length le_rfl
    have hval' : t.foldl (fun a d => a * 10 + d) h = v.length := by
      simpa using hval
    have hfmt : formatNat v.length = (h + 48) :: t.map (fun d => d + 48) := by
      simp [formatNat, h0, hdig]
    rw [hfmt, List.cons_append,
      runBuf_first_digit _ _ (by omega) (by omega)]
    have h48 : h + 48 - 48 = h := by omega
    rw [h48,
      runBuf_digits (t.map (fun d => d + 48)) h (58 :: (v ++ 44 :: tail))
        (by
          intro x hx
          obtain ⟨d, hd, rfl⟩ := List.mem_map.mp hx
          have := hlt d (by simp [hd])
          omega)
        hh
        (by rw [foldl_map_digit_bytes, hval']; exact hlen)]
    rw [foldl_map_digit_bytes, hval', runBuf_colon_step]
    have := runBuf_value v v.length 0 [] tail (by omega)
    simpa using this

/-- C5: round-trip.  For every byte sequence `v` of length at most
`MaximumLength`, `EncodeBytes(NoKey, v)` succeeds and writes exactly
the frame `"<L>:<v>,"` with `L` the shortest decimal form of `v`'s
length, and decoding that frame yields exactly `v` with no error,
leaving a healthy decoder. -/
theorem c5_roundtrip (v : List Nat) (hlen : v.length ≤ MaximumLength) :
    (EncodeBytes NoKey [v] allOk).1 = .ok () ∧
    (EncodeBytes NoKey [v] allOk).2.written = formatNat v.length ++ 58 :: (v ++ [44]) ∧
    Decode (mkDecoder [(formatNat v.length ++ 58 :: (v ++ [44]), none)]) =
      ((some v, none), ⟨[], [], none, initSt⟩) := by
  have hassess : Key.Assess NoKey = (false, none) := rfl
  have hdec :
      Decode (mkDecoder [(formatNat v.length ++ 58 :: (v ++ [44]), none)]) =
        ((some v, none), ⟨[], [], none, initSt⟩) := by
    obtain ⟨fb, ft, hfb⟩ : ∃ fb ft, formatNat v.length = fb :: ft := by
      by_cases h0 : v.length = 0
      · exact ⟨48, [], by simp [formatNat, h0]⟩
      · obtain ⟨h, t, hdig, _⟩ := natDigits_head v.length v.length (by omega) le_rfl
        exact ⟨h + 48, t.map (fun d => d + 48), by simp [formatNat, h0, hdig]⟩
    have hchunk :
        parseChunks [(formatNat v.length ++ 58 :: (v ++ [44]), none)] initSt =
          (some v, ⟨[], [], none, initSt⟩) := by
      rw [hfb, List.cons_append]
      show parseChunks [(fb :: (ft ++ 58 :: (v ++ [44])), none)] initSt = _
      simp only [parseChunks]
      rw [← List.cons_append, ← hfb, runBuf_frame v hlen []]
    simp [Decode, parse_mk, hchunk]
  refine ⟨?_, ?_, hdec⟩
  · by_cases hv : v = []
    · subst hv
      decide
    · have hne : v.isEmpty = false := by simpa [List.isEmpty_iff]
      simp only [EncodeBytes, hassess, EncodeString]
      rw [if_neg (by simpa using hlen)]
      simp [Writer.write, allOk, writeVals, hne]
  · by_cases hv : v = []
    · subst hv
      decide
    · have hne : v.isEmpty = false := by simpa [List.isEmpty_iff]
      simp only [EncodeBytes, hassess, EncodeString]
      rw [if_neg (by simpa using hlen)]
      simp [Writer.write, allOk, writeVals, hne]

/-- C5 witness: the round-trip theorem applied to `v = "abc"`. -/
theorem c5_roundtrip_witness :
    (EncodeBytes NoKey [[97, 98, 99]] allOk).1 = .ok () ∧
    (EncodeBytes NoKey [[97, 98, 99]] allOk).2.written =
      formatNat 3 ++ 58 :: ([97, 98, 99] ++ [44]) ∧
    Decode (mkDecoder [(formatNat 3 ++ 58 :: ([97, 98, 99] ++ [44]), none)]) =
      ((some [97, 98, 99], none), ⟨[], [], none, initSt⟩) :=
  c5_roundtrip [97, 98, 99] (by decide)

/-- C7 counterexample: the stream `"01000000000:x,"` has a length field
that evaluates to `1000000000 > MaximumLength`, yet `Decode` fails with
the leading-zero error, not the length-too-long error. -/
theorem c7_leading_zero_counterexample :
    ([48, 49, 48, 48, 48, 48, 48, 48, 48, 48, 48].foldl
        (fun a x => a * 10 + (x - 48)) 0 = 1000000000) ∧
    MaximumLength < 1000000000 ∧
    (Decode (mkDecoder
        [([48, 49, 48, 48, 48, 48, 48, 48, 48, 48, 48] ++ [58, 120, 44], none)])).1 =
      (none, some .errLeadingZero) ∧
    Err.errLeadingZero ≠ Err.errLengthToLong := by
  decide

/-- C7 (amended): for every input stream whose length field starts with
a non-zero digit and evaluates above `MaximumLength`, `Decode` fails
with the length-too-long error; the error is latched while still
reading length digits — the bytes after the digits (`rest`) are
arbitrary and need not even contain a colon or value, so no value byte
is consumed.  (A too-long length field that starts with the digit `0`
fails with the leading-zero error instead, see the counterexample.) -/
theorem c7_length_overflow (b : Nat) (bs rest : List Nat) (reads : List Chunk)
    (hb1 : 49 ≤ b) (hb2 : b ≤ 57) (hbs : ∀ x ∈ bs, 48 ≤ x ∧ x ≤ 57)
    (hover : MaximumLength < bs.foldl (fun a x => a * 10 + (x - 48)) (b - 48)) :
    (Decode (mkDecoder ((b :: (bs ++ rest), none) :: reads))).1 =
      (none, some .errLengthToLong) := by
  obtain ⟨r, s, hr⟩ := runBuf_overflow bs (b - 48) rest hbs (by omega) (by
    show b - 48 ≤ MaximumLength
    have : MaximumLength = 999999999 := rfl
    omega) hover
  have hrun : runBuf initSt (b :: (bs ++ rest)) = .err .errLengthToLong r s := by
    rw [runBuf_first_digit _ _ (by omega) (by omega)]
    exact hr
  simp [Decode, parse_mk, parseChunks, hrun]

/-- C7 witness: the amended theorem applied to the length field
`"1000000000"` (ten digits, value `10^9 > MaximumLength`). -/
theorem c7_length_overflow_witness :
    (Decode (mkDecoder
        [([49, 48, 48, 48, 48, 48, 48, 48, 48, 48], none)])).1 =
      (none, some .errLengthToLong) := by
  have := c7_length_overflow 49 [48, 48, 48, 48, 48, 48, 48, 48, 48] [] []
    (by decide) (by decide) (by decide) (by decide)
  simpa using this

/-- Parsing a fresh decoder whose first read starts with a complete
frame `"<L>:<v>,"` yields `v` and a healthy decoder positioned at the
remaining bytes. -/
theorem parse_frame (v : List Nat) (hlen : v.length ≤ MaximumLength) (rest : List Nat)
    (reads : List Chunk) :
    parse (mkDecoder ((formatNat v.length ++ 58 :: (v ++ 44 :: rest), none) :: reads)) =
      (some v, ⟨reads, rest, none, initSt⟩) := by
  obtain ⟨fb, ft, hfb⟩ : ∃ fb ft, formatNat v.length = fb :: ft := by
    by_cases h0 : v.length = 0
    · exact ⟨48, [], by simp [formatNat, h0]⟩
    · obtain ⟨h, t, hdig, _⟩ := natDigits_head v.length v.length (by omega) le_rfl
      exact ⟨h + 48, t.map (fun d => d + 48), by simp [formatNat, h0, hdig]⟩
  rw [parse_mk, hfb, List.cons_append]
  show parseChunks ((fb :: (ft ++ 58 :: (v ++ 44 :: rest)), none) :: reads) initSt = _
  simp only [parseChunks]
  rw [← List.cons_append, ← hfb, runBuf_frame v hlen rest]

/-- C9: `DecodeKeyed` semantic errors are non-sticky.  First conjunct:
a well-formed zero-length netstring yields `ErrZeroKey` and leaves the
decoder exactly in the fresh, unpoisoned state positioned at the next
netstring.  Second conjunct: a well-formed netstring of any length
whose first payload byte `b` is not an ASCII letter — payload
`b :: vs`, frame `"<1+|vs|>:<b><vs>,"` — yields `ErrInvalidKey`,
likewise leaving a healthy decoder positioned at the next netstring.
Third conjunct: after the zero-key error on `"0:,3:abc,"`, the
immediately following `DecodeKeyed` proceeds normally to the next
netstring, returning key `'a'` and value `"bc"`. -/
theorem c9_decode_keyed_nonsticky :
    (∀ (rest : List Nat) (reads : List Chunk),
      DecodeKeyed (mkDecoder ((48 :: 58 :: 44 :: rest, none) :: reads)) =
        ((NoKey, none, some .errZeroKey), ⟨reads, rest, none, initSt⟩)) ∧
    (∀ (b : Nat) (vs rest : List Nat) (reads : List Chunk), isLetterByte b = false →
      (b :: vs).length ≤ MaximumLength →
      DecodeKeyed (mkDecoder
          ((formatNat (b :: vs).length ++ 58 :: ((b :: vs) ++ 44 :: rest), none) :: reads)) =
        ((NoKey, none, some .errInvalidKey), ⟨reads, rest, none, initSt⟩)) ∧
    DecodeKeyed (DecodeKeyed (mkDecoder [([48, 58, 44, 51, 58, 97, 98, 99, 44], none)])).2 =
      ((97, some [98, 99], none), ⟨[], [], none, initSt⟩) := by
  refine ⟨?_, ?_, by decide⟩
  · intro rest reads
    simp [DecodeKeyed, parse, mkDecoder, parseChunks, runBuf, commaStep, initSt]
  · intro b vs rest reads hb hlen
    have hp := parse_frame (b :: vs) hlen rest reads
    simp only [DecodeKeyed, hp]
    have hb' : ¬((97 ≤ b ∧ b ≤ 122) ∨ (65 ≤ b ∧ b ≤ 90)) := by
      simpa [isLetterByte] using hb
    by_cases h0 : b = NoKey
    · simp [Key.Assess, h0, hb']
    · simp [Key.Assess, h0, hb']

/-- C9 witness: both general conjuncts instantiated; the invalid-key
conjunct at the two-byte netstring `"2:@1,"` (first payload byte `'@'`,
not a letter), hypotheses discharged by `decide`. -/
theorem c9_decode_keyed_nonsticky_witness :
    DecodeKeyed (mkDecoder [([48, 58, 44], none)]) =
      ((NoKey, none, some .errZeroKey), ⟨[], [], none, initSt⟩) ∧
    DecodeKeyed (mkDecoder [([50, 58, 64, 49, 44], none)]) =
      ((NoKey, none, some .errInvalidKey), ⟨[], [], none, initSt⟩) :=
  ⟨c9_decode_keyed_nonsticky.1 [] [],
    c9_decode_keyed_nonsticky.2.1 64 [49] [] [] (by decide) (by decide)⟩

/-- C1: when the source's final read returns bytes together with
end-of-stream, the code does NOT drain all completed netstrings before
surfacing `io.EOF`.  With a single read returning `"2:ab,2:cd,"`
bundled with `io.EOF`, the first `Decode` yields `"ab"` (with no error
bundled), but the second `Decode` returns `io.EOF` even though the
complete netstring `"2:cd,"` is still sitting unparsed in the staging
buffer (third conjunct) — the sticky-error check at the top of `parse`
fires on the stored `io.EOF` before the buffer is drained.  By
contrast, the same bytes delivered without a bundled error decode to
`"ab"`, then `"cd"`, and only then `io.EOF` (last three conjuncts),
which is the behaviour the spec (and the package's own doc comment)
describes. -/
theorem c1_eof_bundled_read_drops_buffered_netstring :
    (Decode (mkDecoder [([50, 58, 97, 98, 44, 50, 58, 99, 100, 44], some .eof)])).1 =
      (some [97, 98], none) ∧
    (Decode (Decode (mkDecoder
        [([50, 58, 97, 98, 44, 50, 58, 99, 100, 44], some .eof)])).2).1 =
      (none, some .eof) ∧
    (Decode (mkDecoder [([50, 58, 97, 98, 44, 50, 58, 99, 100, 44], some .eof)])).2.buf =
      [50, 58, 99, 100, 44] ∧
    (Decode (mkDecoder [([50, 58, 97, 98, 44, 50, 58, 99, 100, 44], none)])).1 =
      (some [97, 98], none) ∧
    (Decode (Decode (mkDecoder [([50, 58, 97, 98, 44, 50, 58, 99, 100, 44], none)])).2).1 =
      (some [99, 100], none) ∧
    (Decode (Decode (Decode (mkDecoder
        [([50, 58, 97, 98, 44, 50, 58, 99, 100, 44], none)])).2).2).1 =
      (none, some .eof) := by
  decide

/-- C8: the canonical keyed-encoding scenario.  Encoding the integer 21
with key `'a'` (`EncodeInt`, which the generic `Encode` dispatch also
reaches for an `int`), the string `"Iceland"` with key `'C'`, the
string `"Bjorn"` with key `'n'` (the generic `Encode` on a string
dispatches to `EncodeString`), then the sentinel `EncodeBytes('z')`,
writes exactly `"3:a21,8:CIceland,6:nBjorn,1:z,"`; four `DecodeKeyed`
calls on those bytes yield keys `'a'`, `'C'`, `'n'`, `'z'` with
payloads `"21"`, `"Iceland"`, `"Bjorn"`, `""` in that order. -/
theorem c8_keyed_scenario :
    (EncodeBytes 122 []
        (EncodeString 110 [66, 106, 111, 114, 110]
          (EncodeString 67 [73, 99, 101, 108, 97, 110, 100]
            (EncodeInt 97 21 allOk).2).2).2).2.written =
      [51, 58, 97, 50, 49, 44,
        56, 58, 67, 73, 99, 101, 108, 97, 110, 100, 44,
        54, 58, 110, 66, 106, 111, 114, 110, 44,
        49, 58, 122, 44] ∧
    (DecodeKeyed (mkDecoder
        [([51, 58, 97, 50, 49, 44,
            56, 58, 67, 73, 99, 101, 108, 97, 110, 100, 44,
            54, 58, 110, 66, 106, 111, 114, 110, 44,
            49, 58, 122, 44], none)])).1 = (97, some [50, 49], none) ∧
    (DecodeKeyed (DecodeKeyed (mkDecoder
        [([51, 58, 97, 50, 49, 44,
            56, 58, 67, 73, 99, 101, 108, 97, 110, 100, 44,
            54, 58, 110, 66, 106, 111, 114, 110, 44,
            49, 58, 122, 44], none)])).2).1 =
      (67, some [73, 99, 101, 108, 97, 110, 100], none) ∧
    (DecodeKeyed (DecodeKeyed (DecodeKeyed (mkDecoder
        [([51, 58, 97, 50, 49, 44,
            56, 58, 67, 73, 99, 101, 108, 97, 110, 100, 44,
            54, 58, 110, 66, 106, 111, 114, 110, 44,
            49, 58, 122, 44], none)])).2).2).1 =
      (110, some [66, 106, 111, 114, 110], none) ∧
    (DecodeKeyed (DecodeKeyed (DecodeKeyed (DecodeKeyed (mkDecoder
        [([51, 58, 97, 50, 49, 44,
            56, 58, 67, 73, 99, 101, 108, 97, 110, 100, 44,
            54, 58, 110, 66, 106, 111, 114, 110, 44,
            49, 58, 122, 44], none)])).2).2).2).1 =
      (122, some [], none) := by
  decide

/-- C10: unknown and duplicate keys in `Unmarshal`'s decode loop.
First conjunct: a successfully decoded keyed netstring whose key
matches no field and is not `eom` merely replaces the recorded unknown
key — overwriting whatever unknown key was recorded before — and the
loop continues with the field map untouched.  Second conjunct: a key
whose field was already populated (`seen`) is a hard error that aborts
the loop.  Third conjunct: end-to-end, unmarshalling
`"5:b1234,2:q9,1:A,"` into a record whose only field is tagged `'a'`
returns no error and reports `'q'` — the most recent of the two unknown
keys — having decoded through both unknowns to the sentinel.  Fourth
conjunct: end-to-end, `"4:a123,5:a2345,1:A,"` aborts with the
duplicate-stream-key error for the field tagged `'a'`. -/
theorem c10_unknown_key_nonfatal :
    (∀ (fuel : Nat) (eom : Key) (table : List (Key × UField)) (unk k : Key)
        (v : List Nat) (d d' : Decoder),
      DecodeKeyed d = ((k, some v, none), d') → k ≠ eom → lookupField k table = none →
      uLoop eom (fuel + 1) table unk d = uLoop eom fuel table k d') ∧
    (∀ (fuel : Nat) (eom : Key) (table : List (Key × UField)) (unk k : Key)
        (v : Option (List Nat)) (d d' : Decoder) (f : UField),
      DecodeKeyed d = ((k, v, none), d') → k ≠ eom → lookupField k table = some f →
      f.seen = true →
      uLoop eom (fuel + 1) table unk d =
        (unk, some (.errDupStreamKey k f.name), table, d')) ∧
    ((Unmarshal 65 [⟨"M1", true, [97], .kInt 64⟩]
        (mkDecoder [([53, 58, 98, 49, 50, 51, 52, 44,
          50, 58, 113, 57, 44, 49, 58, 65, 44], none)])).1 = 113 ∧
      (Unmarshal 65 [⟨"M1", true, [97], .kInt 64⟩]
        (mkDecoder [([53, 58, 98, 49, 50, 51, 52, 44,
          50, 58, 113, 57, 44, 49, 58, 65, 44], none)])).2.1 = none) ∧
    (Unmarshal 65 [⟨"M1", true, [97], .kInt 64⟩]
        (mkDecoder [([52, 58, 97, 49, 50, 51, 44,
          53, 58, 97, 50, 51, 52, 53, 44, 49, 58, 65, 44], none)])).2.1 =
      some (.errDupStreamKey 97 "M1") := by
  refine ⟨?_, ?_, by decide, by decide⟩
  · intro fuel eom table unk k v d d' hdk hne hlook
    simp only [uLoop]
    rw [hdk]
    simp [hne, hlook]
  · intro fuel eom table unk k v d d' f hdk hne hlook hseen
    simp only [uLoop]
    rw [hdk]
    simp [hne, hlook, hseen]

/-- C10 witness: both general conjuncts instantiated.  The first at the
unknown key `'b'` (not in an empty field map), the second at a field
map whose `'a'` entry is already `seen`. -/
theorem c10_unknown_key_nonfatal_witness :
    uLoop 65 3 [] 0 (mkDecoder [([52, 58, 98, 49, 50, 51, 44], none)]) =
      uLoop 65 2 [] 98 (⟨[], [], none, initSt⟩ : Decoder) ∧
    uLoop 65 3 [(97, ⟨true, "M1", .kInt 64, some (.ivl 123)⟩)] 0
        (mkDecoder [([53, 58, 97, 50, 51, 52, 53, 44], none)]) =
      (0, some (.errDupStreamKey 97 "M1"),
        [(97, ⟨true, "M1", .kInt 64, some (.ivl 123)⟩)],
        (⟨[], [], none, initSt⟩ : Decoder)) :=
  ⟨c10_unknown_key_nonfatal.1 2 65 [] 0 98 [49, 50, 51] _ _ (by decide) (by decide) rfl,
    c10_unknown_key_nonfatal.2.1 2 65 _ 0 97 (some [50, 51, 52, 53]) _ _
      ⟨true, "M1", .kInt 64, some (.ivl 123)⟩ (by decide) (by decide) rfl rfl⟩

/-! ## Marshal lemmas (C2, C3) -/

/-- A record contains a field-tag violation as `Marshal`'s walk would
discover it: among the exported, tagged fields, some field (in order)
has a tag that is not exactly one keyed byte, repeats an
already-accumulated tag, or has an unsupported kind. -/
def hasMarshalViolation (dupes : List (Key × String)) : List MField → Bool
  | [] => false
  | f :: rest =>
    if !f.exported then hasMarshalViolation dupes rest
    else
      match f.tag with
      | [] => hasMarshalViolation dupes rest
      | [t] =>
        if !isLetterByte t then true
        else
          match lookupDupe t dupes with
          | some _ => true
          | none =>
            match f.val with
            | .sliceOther _ => true
            | .otherKind _ => true
            | _ => hasMarshalViolation ((t, f.name) :: dupes) rest
      | _ :: _ :: _ => true

/-- `Key.Assess` on an ASCII letter. -/
theorem assess_letter (t : Nat) (h : isLetterByte t = true) : Key.Assess t = (true, none) := by
  have h' : (97 ≤ t ∧ t ≤ 122) ∨ (65 ≤ t ∧ t ≤ 90) := by simpa [isLetterByte] using h
  have h0 : ¬t = NoKey := by
    show ¬t = 0
    omega
  simp [Key.Assess, h0, h']

/-- A field walk that hits a violation returns an error, whatever the
sink did so far. -/
theorem marshalFields_violation :
    ∀ (fields : List MField) (eom : Key) (dupes : List (Key × String)) (w : Writer),
      hasMarshalViolation dupes fields = true →
      ∃ e, (marshalFields eom w dupes fields).1 = .error e := by
  intro fields
  induction fields with
  | nil => intro eom dupes w h; simp [hasMarshalViolation] at h
  | cons f rest IH =>
    intro eom dupes w h
    obtain ⟨name, exported, tag, val⟩ := f
    cases exported with
    | false =>
      simp only [hasMarshalViolation, Bool.not_false, if_pos] at h
      simpa [marshalFields] using IH eom dupes w h
    | true =>
      match tag with
      | [] =>
        simp only [hasMarshalViolation] at h
        simpa [marshalFields] using IH eom dupes w h
      | [t] =>
        by_cases hlet : isLetterByte t = true
        · have hA := assess_letter t hlet
          simp only [hasMarshalViolation, hlet, Bool.not_true, Bool.false_eq_true,
            if_false] at h
          cases hdup : lookupDupe t dupes with
          | some prev =>
            exact ⟨.errDuplicateTag [t] name prev, by simp [marshalFields, hA, hdup]⟩
          | none =>
            rw [hdup] at h
            cases val with
            | intv v =>
              simp only at h
              simpa [marshalFields, hA, hdup] using IH eom ((t, name) :: dupes) _ h
            | uintv v =>
              simp only at h
              simpa [marshalFields, hA, hdup] using IH eom ((t, name) :: dupes) _ h
            | floatv s =>
              simp only at h
              simpa [marshalFields, hA, hdup] using IH eom ((t, name) :: dupes) _ h
            | strv s =>
              simp only at h
              simpa [marshalFields, hA, hdup] using IH eom ((t, name) :: dupes) _ h
            | bytesv b =>
              simp only at h
              simpa [marshalFields, hA, hdup] using IH eom ((t, name) :: dupes) _ h
            | sliceOther elem =>
              exact ⟨.errUnsupportedKind name, by simp [marshalFields, hA, hdup]⟩
            | otherKind kind =>
              exact ⟨.errUnsupportedKind name, by simp [marshalFields, hA, hdup]⟩
        · have hlet' : isLetterByte t = false := by
            cases hx : isLetterByte t
            · rfl
            · exact absurd hx hlet
          have h' : ¬((97 ≤ t ∧ t ≤ 122) ∨ (65 ≤ t ∧ t ≤ 90)) := by
            simpa [isLetterByte] using hlet'
          by_cases h0 : t = NoKey
          · exact ⟨.errTagNotValid name, by simp [marshalFields, Key.Assess, h0, h']⟩
          · exact ⟨.errInvalidKey, by simp [marshalFields, Key.Assess, h0, h']⟩
      | t1 :: t2 :: ts =>
        exact ⟨.errTagNotValid name, by simp [marshalFields]⟩

/-- The `Except` component of `Marshal` is a function of the key and
the record alone: the sink's behaviour never influences it, because
every per-field encoder result is discarded. -/
theorem marshal_fst_indep :
    ∀ (fields : List MField) (eom : Key) (dupes : List (Key × String)) (w₁ w₂ : Writer),
      (marshalFields eom w₁ dupes fields).1 = (marshalFields eom w₂ dupes fields).1 := by
  intro fields
  induction fields with
  | nil => intro eom dupes w₁ w₂; rfl
  | cons f rest IH =>
    intro eom dupes w₁ w₂
    obtain ⟨name, exported, tag, val⟩ := f
    cases exported with
    | false => simpa [marshalFields] using IH eom dupes w₁ w₂
    | true =>
      match tag with
      | [] => simpa [marshalFields] using IH eom dupes w₁ w₂
      | [t] =>
        by_cases hlet : isLetterByte t = true
        · have hA := assess_letter t hlet
          cases hdup : lookupDupe t dupes with
          | some prev => simp [marshalFields, hA, hdup]
          | none =>
            cases val with
            | intv v => simpa [marshalFields, hA, hdup] using IH eom _ _ _
            | uintv v => simpa [marshalFields, hA, hdup] using IH eom _ _ _
            | floatv s => simpa [marshalFields, hA, hdup] using IH eom _ _ _
            | strv s => simpa [marshalFields, hA, hdup] using IH eom _ _ _
            | bytesv b => simpa [marshalFields, hA, hdup] using IH eom _ _ _
            | sliceOther elem => simp [marshalFields, hA, hdup]
            | otherKind kind => simp [marshalFields, hA, hdup]
        · have h' : ¬((97 ≤ t ∧ t ≤ 122) ∨ (65 ≤ t ∧ t ≤ 90)) := by
            cases hx : isLetterByte t
            · simpa [isLetterByte] using hx
            · exact absurd hx hlet
          by_cases h0 : t = NoKey
          · simp [marshalFields, Key.Assess, h0, h']
          · simp [marshalFields, Key.Assess, h0, h']
      | t1 :: t2 :: ts => simp [marshalFields]

/-- On a sink whose writes all fail, a write call accepts nothing. -/
theorem write_neverOk (w : Writer) (bs : List Nat) (h : ∀ n, w.behavior n = false) :
    w.write bs = (false, ⟨w.behavior, w.calls + 1, w.written⟩) := by
  simp [Writer.write, h]

/-- On a sink whose writes all fail, `EncodeBytes` accepts nothing and
preserves the sink's behaviour. -/
theorem encodeBytes_neverOk (key : Key) (vals : List (List Nat)) (w : Writer)
    (h : ∀ n, w.behavior n = false) :
    (EncodeBytes key vals w).2.written = w.written ∧
    (EncodeBytes key vals w).2.behavior = w.behavior := by
  unfold EncodeBytes
  cases hA : Key.Assess key with
  | mk keyed err =>
    cases err with
    | some e => simp
    | none =>
      by_cases hl : MaximumLength < (if keyed then 1 else 0) + (vals.map List.length).sum
      · simp [hl]
      · simp [hl, write_neverOk _ _ h]

/-- On a sink whose writes all fail, the entire field walk accepts
nothing. -/
theorem marshalFields_neverOk :
    ∀ (fields : List MField) (eom : Key) (dupes : List (Key × String)) (w : Writer),
      (∀ n, w.behavior n = false) →
      (marshalFields eom w dupes fields).2.written = w.written := by
  intro fields
  induction fields with
  | nil =>
    intro eom dupes w h
    simpa [marshalFields] using (encodeBytes_neverOk eom [] w h).1
  | cons f rest IH =>
    intro eom dupes w h
    obtain ⟨name, exported, tag, val⟩ := f
    cases exported with
    | false => simpa [marshalFields] using IH eom dupes w h
    | true =>
      match tag with
      | [] => simpa [marshalFields] using IH eom dupes w h
      | [t] =>
        by_cases hlet : isLetterByte t = true
        · have hA := assess_letter t hlet
          cases hdup : lookupDupe t dupes with
          | some prev => simp [marshalFields, hA, hdup]
          | none =>
            cases val with
            | intv v =>
              have he := encodeBytes_neverOk t [formatInt v] w h
              have := IH eom ((t, name) :: dupes) (EncodeInt64 t v w).2
                (by
                  intro n
                  show (EncodeBytes t [formatInt v] w).2.behavior n = false
                  rw [he.2]
                  exact h n)
              simp [marshalFields, hA, hdup, this.trans he.1]
            | uintv v =>
              have he := encodeBytes_neverOk t [formatNat v] w h
              have := IH eom ((t, name) :: dupes) (EncodeUint64 t v w).2
                (by
                  intro n
                  show (EncodeBytes t [formatNat v] w).2.behavior n = false
                  rw [he.2]
                  exact h n)
              simp [marshalFields, hA, hdup, this.trans he.1]
            | floatv s =>
              have he := encodeBytes_neverOk t [s] w h
              have := IH eom ((t, name) :: dupes) (EncodeString t s w).2
                (by
                  intro n
                  show (EncodeBytes t [s] w).2.behavior n = false
                  rw [he.2]
                  exact h n)
              simp [marshalFields, hA, hdup, this.trans he.1]
            | strv s =>
              have he := encodeBytes_neverOk t [s] w h
              have := IH eom ((t, name) :: dupes) (EncodeString t s w).2
                (by
                  intro n
                  show (EncodeBytes t [s] w).2.behavior n = false
                  rw [he.2]
                  exact h n)
              simp [marshalFields, hA, hdup, this.trans he.1]
            | bytesv b =>
              have he := encodeBytes_neverOk t [b] w h
              have := IH eom ((t, name) :: dupes) (EncodeBytes t [b] w).2
                (by
                  intro n
                  rw [he.2]
                  exact h n)
              simp [marshalFields, hA, hdup, this.trans he.1]
            | sliceOther elem => simp [marshalFields, hA, hdup]
            | otherKind kind => simp [marshalFields, hA, hdup]
        · have h' : ¬((97 ≤ t ∧ t ≤ 122) ∨ (65 ≤ t ∧ t ≤ 90)) := by
            cases hx : isLetterByte t
            · simpa [isLetterByte] using hx
            · exact absurd hx hlet
          by_cases h0 : t = NoKey
          · simp [marshalFields, Key.Assess, h0, h']
          · simp [marshalFields, Key.Assess, h0, h']
      | t1 :: t2 :: ts => simp [marshalFields]

/-- C2 counterexample: a record whose two exported fields both carry
tag `'a'`.  `Marshal` does return the duplicate-tag error, but the
first field's netstring `"2:a1,"` has already been written to the sink
when the violation is detected — the sink is not empty, contradicting
"writes no bytes at all / detected before any I/O occurs". -/
theorem c2_duplicate_tag_writes_before_error :
    (Marshal 90 [⟨"A", true, [97], .intv 1⟩, ⟨"B", true, [97], .intv 2⟩] allOk).1 =
      .error (.errDuplicateTag [97] "B" "A") ∧
    (Marshal 90 [⟨"A", true, [97], .intv 1⟩, ⟨"B", true, [97], .intv 2⟩] allOk).2.written =
      [50, 58, 97, 49, 44] ∧
    ([50, 58, 97, 49, 44] : List Nat) ≠ [] := by
  decide

/-- C2 (amended): for every record whose tagged fields contain a
duplicate netstring tag (or a tag that is not a single keyed-class
byte, or a field of unsupported kind), `Marshal(eomKey, record)`
returns an error, for every sink; but the violation is detected only
when the walk reaches the offending field, so netstrings for earlier
valid fields may already have been written to the sink (see the
counterexample; the package doc itself says an error return "probably
leaves the output stream in an indeterminate state"). -/
theorem c2_marshal_violation_errors (eom : Key) (fields : List MField) (w : Writer)
    (h : hasMarshalViolation [] fields = true) :
    ∃ e, (Marshal eom fields w).1 = .error e := by
  unfold Marshal
  cases hA : Key.Assess eom with
  | mk keyed err =>
    cases err with
    | some e => exact ⟨e, by simp⟩
    | none =>
      cases keyed with
      | false => exact ⟨.errBadMarshalEOM, by simp⟩
      | true =>
        obtain ⟨e, he⟩ := marshalFields_violation fields eom [] w h
        exact ⟨e, by simpa using he⟩

/-- C2 witness: the amended theorem applied to the duplicate-tag
record of the counterexample. -/
theorem c2_marshal_violation_errors_witness :
    ∃ e, (Marshal 90 [⟨"A", true, [97], .intv 1⟩, ⟨"B", true, [97], .intv 2⟩] allOk).1 =
      .error e :=
  c2_marshal_violation_errors 90 _ allOk (by decide)

/-- C3: `Marshal` discards every encoder error.  First conjunct: the
`Except` result of `Marshal` is identical on any two sinks — in
particular a sink whose every write fails — because the results of the
per-field `EncodeInt64` / `EncodeUint64` / `EncodeString` /
`EncodeBytes` calls and of the final sentinel `EncodeBytes(eom)` are
all discarded.  Second conjunct: whenever `Marshal` succeeds on a
perfect sink (i.e. the record passes validation), it still returns
`.ok` on the all-failing sink, and that sink has accepted no bytes at
all — so a nil result does not imply any netstring was written. -/
theorem c3_marshal_ignores_write_errors :
    (∀ (eom : Key) (fields : List MField) (w₁ w₂ : Writer),
      (Marshal eom fields w₁).1 = (Marshal eom fields w₂).1) ∧
    (∀ (eom : Key) (fields : List MField),
      (Marshal eom fields allOk).1 = .ok () →
      (Marshal eom fields allFail).1 = .ok () ∧
      (Marshal eom fields allFail).2.written = []) := by
  have hfst : ∀ (eom : Key) (fields : List MField) (w₁ w₂ : Writer),
      (Marshal eom fields w₁).1 = (Marshal eom fields w₂).1 := by
    intro eom fields w₁ w₂
    unfold Marshal
    cases hA : Key.Assess eom with
    | mk keyed err =>
      cases err with
      | some e => rfl
      | none =>
        cases keyed with
        | false => rfl
        | true => simpa using marshal_fst_indep fields eom [] w₁ w₂
  refine ⟨hfst, ?_⟩
  intro eom fields h
  constructor
  · exact (hfst eom fields allFail allOk).trans h
  · have hw : ∀ n, allFail.behavior n = false := fun _ => rfl
    unfold Marshal
    cases hA : Key.Assess eom with
    | mk keyed err =>
      cases err with
      | some e => rfl
      | none =>
        cases keyed with
        | false => rfl
        | true => simpa using marshalFields_neverOk fields eom [] allFail hw

/-- C3 witness: a record with one valid int field, `eom = 'Z'`: it
passes validation on the perfect sink, and on the all-failing sink
`Marshal` still returns `.ok` with nothing written. -/
theorem c3_marshal_ignores_write_errors_witness :
    (Marshal 90 [⟨"Age", true, [97], .intv 21⟩] allFail).1 = .ok () ∧
    (Marshal 90 [⟨"Age", true, [97], .intv 21⟩] allFail).2.written = [] :=
  c3_marshal_ignores_write_errors.2 90 [⟨"Age", true, [97], .intv 21⟩] (by decide)

end Netstring
